import Mathlib

/-!
Verification development for the Bollinger-band trading strategy repository
(`Bollinger_band.py`, `bollinger_part2.py`).

The engine is shallowly embedded over exact rationals (`ℚ`) for all price and
balance arithmetic, with the single inherently irrational step — the rolling
standard deviation `STD = sqrt(variance)` — modelled over `ℝ` with `Real.sqrt`.
Timestamps (the dataframe index `row.name`) are modelled as naturals.
-/

namespace Trading

/-! ## Configuration constants (Bollinger_band.py lines 8–12) -/

def INITIAL_BALANCE : ℚ := 1000

def STOP_LOSS_PIPS : ℚ := 20

def TAKE_PROFIT_PIPS : ℚ := 40

def PIP_VALUE : ℚ := 1 / 10000

def SPREAD : ℚ := 5 / 10000

/-! ## Python `round(x, 2)` (used for the ledger's `pips`/`balance` fields and
for the drawdown metric): round half to even, at the second decimal. -/

/-- Round a rational to the nearest integer, ties to even (Python `round`). -/
def roundHalfEven (q : ℚ) : ℤ :=
  let f : ℤ := Int.floor q
  let r : ℚ := q - (f : ℚ)
  if r < 1 / 2 then f
  else if 1 / 2 < r then f + 1
  else if f % 2 = 0 then f else f + 1

/-- Python `round(q, 2)` on an exact rational value. -/
def round2 (q : ℚ) : ℚ := (roundHalfEven (q * 100) : ℚ) / 100

/-! ## Data model -/

/-- A Buy/Sell signal value (the non-`None` values of the `Signal` column). -/
inductive Sig where
  | buy
  | sell
  deriving DecidableEq

/-- Outcome of a closed trade (the `result` field: `'Win'` / `'Loss'`). -/
inductive Res where
  | win
  | loss
  deriving DecidableEq

/-- One row of the dataframe as consumed by the backtest loop:
timestamp index (`row.name`), OHLC prices and the `Signal` column entry. -/
structure Row where
  time : ℕ
  opn : ℚ
  high : ℚ
  low : ℚ
  close : ℚ
  signal : Option Sig
  deriving DecidableEq

/-- The `open_trade` dict (Bollinger_band.py line 76). -/
structure OpenTrade where
  entry : ℚ
  sl : ℚ
  tp : ℚ
  entry_time : ℕ
  deriving DecidableEq

/-- One entry of the `positions` ledger (Bollinger_band.py lines 94–102).
`pips` and `balance` are stored rounded to two decimals as in the source. -/
structure ClosedTrade where
  entry_time : ℕ
  exit_time : ℕ
  entry : ℚ
  exit : ℚ
  result : Res
  pips : ℚ
  balance : ℚ
  deriving DecidableEq

/-- The mutable state of the backtest loop (`balance`, `equity`, `positions`,
`open_trade`, Bollinger_band.py lines 62–65). -/
structure BTState where
  balance : ℚ
  equity : List ℚ
  positions : List ClosedTrade
  open_trade : Option OpenTrade
  deriving DecidableEq

/-- State closing the open trade `tr` at price `ep` with outcome `res` on row
`row` (Bollinger_band.py lines 91–103): `pips = (exit_price - entry) / PIP_VALUE`,
`balance += pips`, append the ledger record, clear `open_trade`. -/
def closeState (st : BTState) (row : Row) (tr : OpenTrade) (ep : ℚ) (res : Res) :
    BTState :=
  { balance := st.balance + (ep - tr.entry) / PIP_VALUE
    equity := st.equity
    positions := st.positions ++
      [{ entry_time := tr.entry_time
         exit_time := row.time
         entry := tr.entry
         exit := ep
         result := res
         pips := round2 ((ep - tr.entry) / PIP_VALUE)
         balance := round2 (st.balance + (ep - tr.entry) / PIP_VALUE) }]
    open_trade := none }

/-- The branch part of one backtest iteration (Bollinger_band.py lines 72–103),
before the equity append.  `if signal == 'Buy' and not open_trade:` opens a
trade at `close + SPREAD` with stop/target offsets; `elif open_trade:` checks
the stop-loss first, then the take-profit; the close is guarded by Python's
truthiness test `if exit_price:`, so an exit price of exactly `0` does not
close the trade (the `ep ≠ 0` tests below). -/
def btInner (st : BTState) (row : Row) : BTState :=
  if row.signal = some Sig.buy ∧ st.open_trade = none then
    { st with open_trade := some ⟨row.close + SPREAD,
        row.close + SPREAD - STOP_LOSS_PIPS * PIP_VALUE,
        row.close + SPREAD + TAKE_PROFIT_PIPS * PIP_VALUE, row.time⟩ }
  else
    match st.open_trade with
    | none => st
    | some tr =>
      if row.low ≤ tr.sl then
        (if tr.sl ≠ 0 then closeState st row tr tr.sl Res.loss else st)
      else if row.high ≥ tr.tp then
        (if tr.tp ≠ 0 then closeState st row tr tr.tp Res.win else st)
      else st

/-- One full backtest iteration: the branches above followed by the
unconditional `equity.append(balance)` (Bollinger_band.py line 105). -/
def btStep (st : BTState) (row : Row) : BTState :=
  let st' := btInner st row
  { st' with equity := st'.equity ++ [st'.balance] }

/-- Run the backtest loop over the remaining rows. -/
def runBT (st : BTState) : List Row → BTState
  | [] => st
  | r :: rs => runBT (btStep st r) rs

/-- Initial simulator state (Bollinger_band.py lines 62–65): balance at
`INITIAL_BALANCE`, equity seeded with the initial balance, empty ledger,
no open trade. -/
def initBT : BTState :=
  { balance := INITIAL_BALANCE
    equity := [INITIAL_BALANCE]
    positions := []
    open_trade := none }

/-- The whole backtest pass (`for i in range(len(df))`). -/
def backtest (rows : List Row) : BTState := runBT initBT rows

/-- Maximum of a list of rationals (`np.max`); junk value `0` on the empty
list, which the source never reaches when metrics are computed. -/
def listMax : List ℚ → ℚ
  | [] => 0
  | x :: xs => xs.foldl max x

/-- The `df['Equity']` column (Bollinger_band.py line 107): the equity list
truncated to the dataframe length, `equity[:len(df)]`. -/
def equityCol (rows : List Row) : List ℚ :=
  ((backtest rows).equity).take rows.length

/-- The `Max Drawdown` metric (Bollinger_band.py line 116):
`round(np.max([INITIAL_BALANCE - e for e in df['Equity']]), 2)`. -/
def max_drawdown (rows : List Row) : ℚ :=
  round2 (listMax ((equityCol rows).map (fun e => INITIAL_BALANCE - e)))

/-- Definition following the spec's words (spec §4.4): the maximum over ALL
EquityPoints (the full equity curve, seed and final point included) of
`initialBalance − balance`, without truncation. -/
def maxDrawdownSpec (rows : List Row) : ℚ :=
  listMax (((backtest rows).equity).map (fun e => INITIAL_BALANCE - e))

/-! ## Indicator engine (Bollinger_band.py lines 40–43) -/

/-- The trailing 20-bar window of closes ending at index `i`
(`rolling(window=20)`). -/
def winAt (xs : List ℚ) (i : ℕ) : List ℚ :=
  (xs.take (i + 1)).drop (i + 1 - 20)

/-- `df['MA']`: rolling mean over 20 bars; `none` during warm-up (the NaN
region, indices `< 19`). -/
def rollingMean (xs : List ℚ) (i : ℕ) : Option ℚ :=
  if 19 ≤ i ∧ i < xs.length then some ((winAt xs i).sum / 20) else none

/-- The square of `df['STD']`: rolling sample variance (pandas `std`, ddof = 1)
over 20 bars; `none` during warm-up. -/
def rollingVar (xs : List ℚ) (i : ℕ) : Option ℚ :=
  if 19 ≤ i ∧ i < xs.length then
    some (((winAt xs i).map (fun x => (x - (winAt xs i).sum / 20) ^ 2)).sum / 19)
  else none

/-- `df['Upper'] = MA + 2*STD` with `STD = sqrt(variance)`; warm-up (NaN)
entries are modelled by the junk value `0`, which the signal loop never reads
(it only reads indices `≥ 20`). -/
noncomputable def bollingerUpper (xs : List ℚ) : List ℝ :=
  (List.range xs.length).map (fun i =>
    match rollingMean xs i, rollingVar xs i with
    | some m, some v => (m : ℝ) + 2 * Real.sqrt (v : ℝ)
    | _, _ => 0)

/-- `df['Lower'] = MA - 2*STD`, same conventions as `bollingerUpper`. -/
noncomputable def bollingerLower (xs : List ℚ) : List ℝ :=
  (List.range xs.length).map (fun i =>
    match rollingMean xs i, rollingVar xs i with
    | some m, some v => (m : ℝ) - 2 * Real.sqrt (v : ℝ)
    | _, _ => 0)

/-! ## Signal generator (Bollinger_band.py lines 46–59)

The `Signal` column is initialised to `None` for every row and the loop
`for i in range(20, len(df))` writes entries from index 20 on, threading the
`position` flag.  This is modelled as a single pass over `range (len df)` in
which indices `< 20` emit `None` and leave the state untouched. -/

/-- The signal loop over a list of row indices, threading `position`. -/
def sigGo [LinearOrder α] [Inhabited α] (close upper lower : List α) :
    List ℕ → Bool → List (Option Sig)
  | [], _ => []
  | i :: is, position =>
    if i < 20 then none :: sigGo close upper lower is position
    else
      let c := close.getD i default
      let u := upper.getD i default
      let l := lower.getD i default
      if c < l ∧ position = false then
        some Sig.buy :: sigGo close upper lower is true
      else if u < c ∧ position = true then
        some Sig.sell :: sigGo close upper lower is false
      else
        none :: sigGo close upper lower is position

/-- The `Signal` column produced from the `Close`, `Upper`, `Lower` columns:
`position` starts `False`, the loop covers `range(len(df))` with indices
below 20 fixed at `None`. -/
def signalsOf [LinearOrder α] [Inhabited α] (close upper lower : List α) :
    List (Option Sig) :=
  sigGo close upper lower (List.range close.length) false

/-- The composed Bollinger pipeline: the `Signal` column computed from a close
series via the rolling bands. -/
noncomputable def bollingerSignals (xs : List ℚ) : List (Option Sig) :=
  signalsOf (xs.map (fun q => (q : ℝ))) (bollingerUpper xs) (bollingerLower xs)

/-! ## Zero-lag trend level (bollinger_part2.py) -/

/-- The EMA recurrence `ema[0] = x[0]; ema[t] = a*x[t] + (1-a)*ema[t-1]`,
continuation after the seed. -/
def emaAux (a : ℚ) (prev : ℚ) : List ℚ → List ℚ
  | [] => []
  | x :: xs =>
    let e := a * x + (1 - a) * prev
    e :: emaAux a e xs

/-- The full EMA series (`adjust=False` recurrence). -/
def emaList (a : ℚ) : List ℚ → List ℚ
  | [] => []
  | x :: xs => x :: emaAux a x xs

/-- `series.ewm(span=span, adjust=False).mean()`: pandas validates
`span >= 1` and otherwise raises; the smoothing factor is `2/(span+1)`. -/
def ewmMean (span : ℤ) (xs : List ℚ) : Except String (List ℚ) :=
  if span < 1 then Except.error "span must satisfy: span >= 1"
  else Except.ok (emaList (2 / ((span : ℚ) + 1)) xs)

/-- `zero_lag_trend_level` (bollinger_part2.py lines 4–38): EMA of close,
momentum-boosted series, second EMA, smoothing EMA of span
`max(2, length // 3)` (Python floor division), and the shift-compared trend
flags (`False` at index 0, where the shifted value is NaN). -/
def zero_lag_trend_level (closes : List ℚ) (length : ℤ) (sensitivity : ℚ) :
    Except String (List ℚ × List Bool × List Bool) := do
  let ema1 ← ewmMean length closes
  let zlema_raw ← ewmMean length
    (List.zipWith (fun c e => c + (c - e) * sensitivity) closes ema1)
  let smooth_length := max 2 (Int.fdiv length 3)
  let zlema ← ewmMean smooth_length zlema_raw
  let trendUp := (List.range zlema.length).map (fun t =>
    if t = 0 then false else decide (zlema.getD (t - 1) 0 < zlema.getD t 0))
  let trendDn := (List.range zlema.length).map (fun t =>
    if t = 0 then false else decide (zlema.getD t 0 < zlema.getD (t - 1) 0))
  return (zlema, trendUp, trendDn)

/-! ## Structural lemmas about one backtest iteration -/

/-- No branch of the backtest iteration touches the equity list before the
final append. -/
lemma btInner_equity (st : BTState) (r : Row) : (btInner st r).equity = st.equity := by
  unfold btInner
  split
  · rfl
  · cases st.open_trade with
    | none => rfl
    | some tr =>
      dsimp only
      split
      · split <;> rfl
      · split
        · split <;> rfl
        · rfl

lemma btStep_balance (st : BTState) (r : Row) :
    (btStep st r).balance = (btInner st r).balance := rfl

lemma btStep_positions (st : BTState) (r : Row) :
    (btStep st r).positions = (btInner st r).positions := rfl

lemma btStep_open_trade (st : BTState) (r : Row) :
    (btStep st r).open_trade = (btInner st r).open_trade := rfl

lemma btStep_equity (st : BTState) (r : Row) :
    (btStep st r).equity = st.equity ++ [(btInner st r).balance] := by
  show (btInner st r).equity ++ [(btInner st r).balance] = _
  rw [btInner_equity]

/-- Exhaustive description of what one backtest iteration can do:
leave the state unchanged, open a trade on a Buy signal with the configured
entry/stop/target arithmetic, or close the open trade at a nonzero stop or
target price (stop checked first). -/
lemma btInner_cases (st : BTState) (r : Row) :
    btInner st r = st
    ∨ (r.signal = some Sig.buy ∧ st.open_trade = none ∧
        btInner st r = { st with open_trade := some ⟨r.close + SPREAD,
          r.close + SPREAD - STOP_LOSS_PIPS * PIP_VALUE,
          r.close + SPREAD + TAKE_PROFIT_PIPS * PIP_VALUE, r.time⟩ })
    ∨ (∃ tr ep res, st.open_trade = some tr ∧ ep ≠ 0 ∧
        ((ep = tr.sl ∧ res = Res.loss ∧ r.low ≤ tr.sl) ∨
          (ep = tr.tp ∧ res = Res.win ∧ ¬ r.low ≤ tr.sl ∧ tr.tp ≤ r.high)) ∧
        btInner st r = closeState st r tr ep res) := by
  unfold btInner
  by_cases hb : r.signal = some Sig.buy ∧ st.open_trade = none
  · exact Or.inr (Or.inl ⟨hb.1, hb.2, by rw [if_pos hb]⟩)
  · rw [if_neg hb]
    cases ho : st.open_trade with
    | none => exact Or.inl rfl
    | some tr =>
      dsimp only
      by_cases hl : r.low ≤ tr.sl
      · rw [if_pos hl]
        by_cases h0 : tr.sl ≠ 0
        · exact Or.inr (Or.inr ⟨tr, tr.sl, Res.loss, ho ▸ ho, h0,
            Or.inl ⟨rfl, rfl, hl⟩, by rw [if_pos h0]⟩)
        · exact Or.inl (by rw [if_neg h0])
      · rw [if_neg hl]
        by_cases hh : r.high ≥ tr.tp
        · rw [if_pos hh]
          by_cases h0 : tr.tp ≠ 0
          · exact Or.inr (Or.inr ⟨tr, tr.tp, Res.win, ho ▸ ho, h0,
              Or.inr ⟨rfl, rfl, hl, hh⟩, by rw [if_pos h0]⟩)
          · exact Or.inl (by rw [if_neg h0])
        · exact Or.inl (by rw [if_neg hh])

/-- Splitting a backtest run. -/
lemma runBT_append (st : BTState) (l1 l2 : List Row) :
    runBT st (l1 ++ l2) = runBT (runBT st l1) l2 := by
  induction l1 generalizing st with
  | nil => rfl
  | cons r rs ih =>
    show runBT (btStep st r) (rs ++ l2) = runBT (runBT (btStep st r) rs) l2
    exact ih (btStep st r)

/-- The equity list grows by exactly one entry per processed row. -/
lemma runBT_equity_length (rows : List Row) :
    ∀ st : BTState, (runBT st rows).equity.length = st.equity.length + rows.length := by
  induction rows with
  | nil => intro st; simp [runBT]
  | cons r rs ih =>
    intro st
    simp only [runBT, ih, btStep_equity, List.length_append, List.length_cons,
      List.length_nil, List.length]
    omega

/-- The seed entry survives at the head of the equity list. -/
lemma runBT_equity_head (rows : List Row) :
    ∀ st : BTState, ∀ rest, st.equity = INITIAL_BALANCE :: rest →
      ∃ rest2, (runBT st rows).equity = INITIAL_BALANCE :: rest2 := by
  induction rows with
  | nil => intro st rest h; exact ⟨rest, h⟩
  | cons r rs ih =>
    intro st rest h
    exact ih (btStep st r) (rest ++ [(btInner st r).balance])
      (by rw [btStep_equity, h, List.cons_append])

/-- After any step, the last equity entry is the current balance. -/
lemma runBT_equity_last (rows : List Row) :
    ∀ st : BTState, st.equity.getLast? = some st.balance →
      (runBT st rows).equity.getLast? = some (runBT st rows).balance := by
  induction rows with
  | nil => intro st h; exact h
  | cons r rs ih =>
    intro st h
    exact ih (btStep st r) (by rw [btStep_equity, btStep_balance, List.getLast?_concat])

/-- C2: for every input series of `n` bars the equity curve has exactly
`n + 1` entries: the seed entry holding the initial balance at its head, one
entry appended per processed bar, and the final entry is the balance after the
last bar. -/
theorem c2_equity_curve (rows : List Row) :
    (backtest rows).equity.length = rows.length + 1
    ∧ (backtest rows).equity.head? = some INITIAL_BALANCE
    ∧ (backtest rows).equity.getLast? = some ((backtest rows).balance) := by
  refine ⟨?_, ?_, ?_⟩
  · rw [backtest, runBT_equity_length]
    simp [initBT]
    omega
  · obtain ⟨rest2, h⟩ := runBT_equity_head rows initBT [] rfl
    rw [backtest, h]
    rfl
  · exact runBT_equity_last rows initBT rfl

/-! ## Lemmas about the signal loop -/

lemma sigGo_length [LinearOrder α] [Inhabited α] (c u l : List α) :
    ∀ (idxs : List ℕ) (pos : Bool), (sigGo c u l idxs pos).length = idxs.length := by
  intro idxs
  induction idxs with
  | nil => intro pos; rfl
  | cons i is ih =>
    intro pos
    simp only [sigGo]
    split_ifs <;> simp [ih]

/-- An index below 20 always yields a `None` signal entry, whatever the state. -/
lemma sigGo_get?_of_lt20 [LinearOrder α] [Inhabited α] (c u l : List α) :
    ∀ (idxs : List ℕ) (pos : Bool) (k j : ℕ), idxs.get? k = some j → j < 20 →
      (sigGo c u l idxs pos).get? k = some none := by
  intro idxs
  induction idxs with
  | nil => intro pos k j h; simp at h
  | cons i is ih =>
    intro pos k j hk hj
    cases k with
    | zero =>
      have hij : i = j := by simpa using hk
      subst hij
      simp only [sigGo, if_pos hj]
      rfl
    | succ k' =>
      have hk' : is.get? k' = some j := by simpa using hk
      simp only [sigGo]
      split_ifs <;> simpa using ih _ k' j hk' hj

/-- Warm-up: entries of the signal column below index 20 are all `None`. -/
lemma signalsOf_warmup [LinearOrder α] [Inhabited α] (c u l : List α)
    (i : ℕ) (hi : i < 20) :
    ∀ s, (signalsOf c u l).get? i = some s → s = none := by
  intro s hs
  by_cases hlen : i < c.length
  · have hr : (List.range c.length).get? i = some i := List.get?_range hlen
    have h2 := sigGo_get?_of_lt20 c u l (List.range c.length) false i i hr hi
    rw [signalsOf] at hs
    rw [h2] at hs
    exact (Option.some_inj.mp hs).symm
  · exfalso
    have hlen2 : (signalsOf c u l).length ≤ i := by
      rw [signalsOf, sigGo_length, List.length_range]
      omega
    rw [List.get?_eq_none.mpr hlen2] at hs
    exact Option.noConfusion hs

/-- A block of indices all below 20 contributes a block of `None`s and leaves
the position state alone. -/
lemma sigGo_append_lt20 [LinearOrder α] [Inhabited α] (c u l : List α)
    (l2 : List ℕ) (pos : Bool) :
    ∀ l1 : List ℕ, (∀ j ∈ l1, j < 20) →
      sigGo c u l (l1 ++ l2) pos =
        List.replicate l1.length none ++ sigGo c u l l2 pos := by
  intro l1
  induction l1 with
  | nil => intro _; simp
  | cons i is ih =>
    intro h
    have hi : i < 20 := h i (List.mem_cons_self i is)
    have hrest := ih (fun j hj => h j (List.mem_cons_of_mem i hj))
    rw [List.cons_append]
    simp only [sigGo, if_pos hi]
    rw [hrest]
    simp [List.replicate_succ]

/-- The shape of an alternating Buy/Sell event sequence: starting from the
flat state (`pos = false`) the next event must be Buy, from the in-position
state it must be Sell. -/
def AltFrom : Bool → List Sig → Prop
  | _, [] => True
  | false, s :: rest => s = Sig.buy ∧ AltFrom true rest
  | true, s :: rest => s = Sig.sell ∧ AltFrom false rest

lemma altFrom_nil (pos : Bool) : AltFrom pos [] := by
  cases pos <;> trivial

/-- The signal loop's emitted (non-`None`) events alternate according to the
position flag it entered with. -/
lemma sigGo_altFrom [LinearOrder α] [Inhabited α] (c u l : List α) :
    ∀ (idxs : List ℕ) (pos : Bool),
      AltFrom pos ((sigGo c u l idxs pos).filterMap id) := by
  intro idxs
  induction idxs with
  | nil => intro pos; simpa [sigGo] using altFrom_nil pos
  | cons i is ih =>
    intro pos
    simp only [sigGo]
    split_ifs with h1 h2 h3
    · simpa using ih pos
    · have hpos : pos = false := h2.2
      subst hpos
      simpa [AltFrom] using ih true
    · have hpos : pos = true := h3.2
      subst hpos
      simpa [AltFrom] using ih false
    · simpa using ih pos

lemma altFrom_head :
    ∀ xs : List Sig, AltFrom false xs → ∀ s, xs.head? = some s → s = Sig.buy := by
  intro xs h s hs
  cases xs with
  | nil => exact Option.noConfusion hs
  | cons s1 rest =>
    have : s1 = s := by simpa using hs
    subst this
    exact h.1

lemma altFrom_head_sell :
    ∀ xs : List Sig, AltFrom true xs → ∀ s, xs.head? = some s → s = Sig.sell := by
  intro xs h s hs
  cases xs with
  | nil => exact Option.noConfusion hs
  | cons s1 rest =>
    have : s1 = s := by simpa using hs
    subst this
    exact h.1

lemma altFrom_chain' :
    ∀ (xs : List Sig) (pos : Bool), AltFrom pos xs →
      List.Chain' (fun a b => a ≠ b) xs := by
  intro xs
  induction xs with
  | nil => intro pos _; simp
  | cons s rest ih =>
    intro pos h
    rw [List.chain'_cons']
    cases pos with
    | false =>
      obtain ⟨hs, hrest⟩ := h
      subst hs
      refine ⟨?_, ih true hrest⟩
      intro b hb
      have hb2 : b = Sig.sell := altFrom_head_sell rest hrest b hb
      subst hb2
      simp
    | true =>
      obtain ⟨hs, hrest⟩ := h
      subst hs
      refine ⟨?_, ih false hrest⟩
      intro b hb
      have hb2 : b = Sig.buy := altFrom_head rest hrest b hb
      subst hb2
      simp

/-- C5: the emitted signal sequence strictly alternates — no two consecutive
equal events among the non-`None` entries — the first emitted event, if any,
is Buy, and every entry before index 20 (in particular the whole warm-up
window) is `None`. -/
theorem c5_signal_alternation [LinearOrder α] [Inhabited α]
    (close upper lower : List α) :
    List.Chain' (fun a b => a ≠ b) ((signalsOf close upper lower).filterMap id)
    ∧ (∀ s, ((signalsOf close upper lower).filterMap id).head? = some s →
        s = Sig.buy)
    ∧ (∀ i, i < 20 → ∀ s, (signalsOf close upper lower).get? i = some s →
        s = none) := by
  refine ⟨?_, ?_, ?_⟩
  · exact altFrom_chain' _ false (sigGo_altFrom close upper lower _ false)
  · exact altFrom_head _ (sigGo_altFrom close upper lower _ false)
  · intro i hi
    exact signalsOf_warmup close upper lower i hi

/-- Input columns for the C5 witness: a Buy fires at index 20 and a Sell at
index 21. -/
def c5w_close : List ℚ := List.replicate 20 0 ++ [-1, 10]

def c5w_upper : List ℚ := List.replicate 20 0 ++ [0, 5]

def c5w_lower : List ℚ := List.replicate 20 0 ++ [0, 0]

theorem c5_signal_alternation_witness :
    List.Chain' (fun a b => a ≠ b) ((signalsOf c5w_close c5w_upper c5w_lower).filterMap id)
    ∧ Sig.buy = Sig.buy ∧ (0 : ℕ) < 20 := by
  refine ⟨(c5_signal_alternation c5w_close c5w_upper c5w_lower).1, ?_, by decide⟩
  exact (c5_signal_alternation c5w_close c5w_upper c5w_lower).2.1 Sig.buy (by decide)

/-- C1 (amended): the signal rule is evaluated only from index `window` = 20
onward — every index `< 20`, including `window − 1 = 19` where the indicator
first becomes available, carries `None` — and a close below the lower band at
index 20 emits Buy there. -/
theorem c1_amended_signal_start [LinearOrder α] [Inhabited α]
    (close upper lower : List α) :
    (∀ i, i < 20 → ∀ s, (signalsOf close upper lower).get? i = some s →
        s = none)
    ∧ (20 < close.length → close.getD 20 default < lower.getD 20 default →
        (signalsOf close upper lower).get? 20 = some (some Sig.buy)) := by
  constructor
  · intro i hi
    exact signalsOf_warmup close upper lower i hi
  · intro hlen hlt
    have hn : close.length = 20 + (close.length - 20) := by omega
    rw [signalsOf, hn, List.range_add,
      sigGo_append_lt20 close upper lower _ false (List.range 20) (by simp)]
    simp only [List.length_range]
    have hm : close.length - 20 = (close.length - 21) + 1 := by omega
    rw [hm, List.range_succ_eq_map]
    simp only [List.map_cons, Nat.add_zero]
    rw [List.get?_append_right (by simp)]
    simp only [List.length_replicate, Nat.sub_self]
    simp only [sigGo]
    rw [if_neg (by omega), if_pos ⟨hlt, trivial⟩]
    rfl

/-- Input columns for the C1 amended witness: close below the lower band at
index 20. -/
def c1w_close : List ℚ := List.replicate 20 0 ++ [-1]

def c1w_upper : List ℚ := List.replicate 21 0

def c1w_lower : List ℚ := List.replicate 21 0

theorem c1_amended_signal_start_witness :
    (signalsOf c1w_close c1w_upper c1w_lower).get? 20 = some (some Sig.buy) :=
  (c1_amended_signal_start c1w_close c1w_upper c1w_lower).2 (by decide) (by decide)



/-! ## C1 counterexample: the signal loop skips index 19 = window − 1 -/

/-- A 20-bar close series engineered so that the trailing window at index 19
has mean 100 and sample variance 4 (hence lower band `100 − 2·2 = 96`), while
the close at index 19 is 94, strictly below the band. -/
def ex1 : List ℚ :=
  [106, 101, 101, 99, 99, 100, 100, 100, 100, 100,
   100, 100, 100, 100, 100, 100, 100, 100, 100, 94]

lemma ex1_mean : rollingMean ex1 19 = some 100 := by
  norm_num [rollingMean, winAt, ex1]

lemma ex1_var : rollingVar ex1 19 = some 4 := by
  norm_num [rollingVar, winAt, ex1]

/-- Value of the lower band of `ex1` at index 19. -/
lemma ex1_lower19 : (bollingerLower ex1).getD 19 0 = 96 := by
  have hlen : ex1.length = 20 := by decide
  rw [bollingerLower, List.getD_eq_getD_get?, List.get?_map,
    hlen, List.get?_range (by omega)]
  simp only [Option.map_some', Option.getD_some]
  rw [ex1_mean, ex1_var]
  dsimp only
  have h4 : Real.sqrt ((4 : ℚ) : ℝ) = 2 := by
    rw [show ((4 : ℚ) : ℝ) = (2 : ℝ) ^ 2 by norm_num]
    exact Real.sqrt_sq (by norm_num)
  rw [h4]
  norm_num

/-- C1 counterexample: on `ex1` the close at index `window − 1 = 19` (value
94) is strictly below the lower band (value 96), yet the program's signal
column carries no signal at index 19 — the loop `for i in range(20, len(df))`
never evaluates the rule there. -/
theorem c1_counterexample :
    ex1.get? 19 = some 94
    ∧ (94 : ℝ) < (bollingerLower ex1).getD 19 0
    ∧ (bollingerSignals ex1).get? 19 = some none := by
  refine ⟨by decide, ?_, ?_⟩
  · rw [ex1_lower19]; norm_num
  · rw [bollingerSignals, signalsOf]
    apply sigGo_get?_of_lt20
    · rw [List.get?_range]
      simp [ex1]
    · omega


/-! ## Rounding and list-max helper lemmas -/

lemma roundHalfEven_intCast (k : ℤ) : roundHalfEven (k : ℚ) = k := by
  unfold roundHalfEven
  norm_num [Int.floor_intCast]

lemma round2_intCast (n : ℤ) : round2 ((n : ℚ)) = (n : ℚ) := by
  unfold round2
  rw [show ((n : ℚ) * 100) = ((n * 100 : ℤ) : ℚ) by push_cast; ring,
    roundHalfEven_intCast]
  push_cast
  rw [mul_div_assoc]
  norm_num

lemma round2_zero : round2 0 = 0 := by
  have h := round2_intCast 0
  simpa using h

lemma roundHalfEven_nonneg (q : ℚ) (h : 0 ≤ q) : 0 ≤ roundHalfEven q := by
  unfold roundHalfEven
  dsimp only
  have hf : (0 : ℤ) ≤ Int.floor q := Int.floor_nonneg.mpr h
  split_ifs <;> omega

lemma round2_nonneg (q : ℚ) (h : 0 ≤ q) : 0 ≤ round2 q := by
  unfold round2
  have h1 : (0 : ℤ) ≤ roundHalfEven (q * 100) :=
    roundHalfEven_nonneg _ (by positivity)
  have h2 : (0 : ℚ) ≤ (roundHalfEven (q * 100) : ℚ) := by exact_mod_cast h1
  positivity

lemma le_foldl_max (xs : List ℚ) : ∀ a : ℚ, a ≤ xs.foldl max a := by
  induction xs with
  | nil => intro a; simp
  | cons y ys ih =>
    intro a
    calc a ≤ max a y := le_max_left a y
    _ ≤ ys.foldl max (max a y) := ih (max a y)
    _ = (y :: ys).foldl max a := rfl

lemma mem_le_foldl_max (xs : List ℚ) : ∀ (a x : ℚ), x ∈ xs → x ≤ xs.foldl max a := by
  induction xs with
  | nil => intro a x h; simp at h
  | cons y ys ih =>
    intro a x h
    rcases List.mem_cons.mp h with h1 | h2
    · subst h1
      calc x ≤ max a x := le_max_right a x
      _ ≤ ys.foldl max (max a x) := le_foldl_max ys (max a x)
      _ = (x :: ys).foldl max a := rfl
    · exact ih (max a y) x h2

lemma foldl_max_le (xs : List ℚ) :
    ∀ a c : ℚ, a ≤ c → (∀ x ∈ xs, x ≤ c) → xs.foldl max a ≤ c := by
  induction xs with
  | nil => intro a c h _; simpa using h
  | cons y ys ih =>
    intro a c ha hall
    exact ih (max a y) c (max_le ha (hall y (List.mem_cons_self y ys)))
      (fun x hx => hall x (List.mem_cons_of_mem y hx))

lemma le_listMax (l : List ℚ) (x : ℚ) (h : x ∈ l) : x ≤ listMax l := by
  cases l with
  | nil => simp at h
  | cons a as =>
    rcases List.mem_cons.mp h with h1 | h2
    · subst h1; exact le_foldl_max as x
    · exact mem_le_foldl_max as a x h2

lemma listMax_le (l : List ℚ) (c : ℚ) (h : l ≠ []) (hall : ∀ x ∈ l, x ≤ c) :
    listMax l ≤ c := by
  cases l with
  | nil => exact absurd rfl h
  | cons a as =>
    exact foldl_max_le as a c (hall a (List.mem_cons_self a as))
      (fun x hx => hall x (List.mem_cons_of_mem a hx))

/-! ## C3: the drawdown metric is computed over the truncated equity column -/

lemma backtest_equity_length (rows : List Row) :
    (backtest rows).equity.length = rows.length + 1 := by
  rw [backtest, runBT_equity_length]
  simp [initBT]
  omega

lemma backtest_equity_head (rows : List Row) :
    ∃ rest, (backtest rows).equity = INITIAL_BALANCE :: rest :=
  runBT_equity_head rows initBT [] rfl

/-- The truncation `equity[:len(df)]` drops exactly the final equity entry. -/
lemma equityCol_eq_dropLast (rows : List Row) :
    equityCol rows = (backtest rows).equity.dropLast := by
  rw [equityCol, List.dropLast_eq_take, backtest_equity_length]
  simp

/-- C3 (amended): the `Max Drawdown` metric is the rounded maximum of
`initialBalance − balance` over all equity entries EXCEPT the final one (the
balance after the last bar is dropped by the `equity[:len(df)]` truncation);
it is still always nonnegative, and it is zero whenever the balance never
falls below the initial balance strictly before the final bar's update. -/
theorem c3_amended_max_drawdown (rows : List Row) (h : rows ≠ []) :
    max_drawdown rows =
      round2 (listMax (((backtest rows).equity.dropLast).map
        (fun e => INITIAL_BALANCE - e)))
    ∧ 0 ≤ max_drawdown rows
    ∧ ((∀ e ∈ (backtest rows).equity.dropLast, INITIAL_BALANCE ≤ e) →
        max_drawdown rows = 0) := by
  have hmem : (0 : ℚ) ∈ (equityCol rows).map (fun e => INITIAL_BALANCE - e) := by
    obtain ⟨rest, hrest⟩ := backtest_equity_head rows
    have hlen : 1 ≤ rows.length := by
      cases rows with
      | nil => exact absurd rfl h
      | cons r rs => simp
    have hic : INITIAL_BALANCE ∈ equityCol rows := by
      rw [equityCol, hrest]
      cases rows with
      | nil => exact absurd rfl h
      | cons r rs => simp [List.take_cons]
    have : INITIAL_BALANCE - INITIAL_BALANCE = (0 : ℚ) := by ring
    exact this ▸ List.mem_map_of_mem (fun e => INITIAL_BALANCE - e) hic
  refine ⟨?_, ?_, ?_⟩
  · rw [max_drawdown, equityCol_eq_dropLast]
  · exact round2_nonneg _ (le_trans (le_of_eq rfl) (le_listMax _ 0 hmem))
  · intro hall
    have hle : listMax ((equityCol rows).map (fun e => INITIAL_BALANCE - e)) ≤ 0 := by
      apply listMax_le
      · exact List.ne_nil_of_mem hmem
      · intro x hx
        obtain ⟨e, he, hxe⟩ := List.mem_map.mp hx
        rw [equityCol_eq_dropLast] at he
        have := hall e he
        rw [← hxe]
        linarith
    have hge : 0 ≤ listMax ((equityCol rows).map (fun e => INITIAL_BALANCE - e)) :=
      le_listMax _ 0 hmem
    rw [max_drawdown, le_antisymm hle hge, round2_zero]


/-- C3 counterexample input: 22 bars; the Bollinger-shaped signal column is
`None` everywhere except a Buy at index 20; the stop-loss fires on the final
bar 21, so the only balance drop (1000 → 980) occurs in the final equity
entry — exactly the entry the truncation discards. -/
def rows3 : List Row :=
  [⟨0, 100, 101, 99, 100, none⟩, ⟨1, 100, 101, 99, 100, none⟩,
   ⟨2, 100, 101, 99, 100, none⟩, ⟨3, 100, 101, 99, 100, none⟩,
   ⟨4, 100, 101, 99, 100, none⟩, ⟨5, 100, 101, 99, 100, none⟩,
   ⟨6, 100, 101, 99, 100, none⟩, ⟨7, 100, 101, 99, 100, none⟩,
   ⟨8, 100, 101, 99, 100, none⟩, ⟨9, 100, 101, 99, 100, none⟩,
   ⟨10, 100, 101, 99, 100, none⟩, ⟨11, 100, 101, 99, 100, none⟩,
   ⟨12, 100, 101, 99, 100, none⟩, ⟨13, 100, 101, 99, 100, none⟩,
   ⟨14, 100, 101, 99, 100, none⟩, ⟨15, 100, 101, 99, 100, none⟩,
   ⟨16, 100, 101, 99, 100, none⟩, ⟨17, 100, 101, 99, 100, none⟩,
   ⟨18, 100, 101, 99, 100, none⟩, ⟨19, 100, 101, 99, 100, none⟩,
   ⟨20, 94, 95, 93, 94, some Sig.buy⟩,
   ⟨21, 934/10, 935/10, 93, 932/10, none⟩]

/-- C3 counterexample: on `rows3` the program's `Max Drawdown` metric is 0,
while the maximum of `initialBalance − balance` over ALL equity points (the
spec's definition) is 20 — the two disagree because the final equity entry is
truncated away before the metric is computed. -/
theorem c3_counterexample :
    max_drawdown rows3 = 0 ∧ maxDrawdownSpec rows3 = 20
    ∧ max_drawdown rows3 ≠ maxDrawdownSpec rows3 := by
  have h1 : max_drawdown rows3 = 0 := by
    simp [max_drawdown, equityCol, backtest, runBT, btStep, btInner, closeState,
      initBT, rows3, INITIAL_BALANCE, SPREAD, PIP_VALUE, STOP_LOSS_PIPS,
      TAKE_PROFIT_PIPS]
    norm_num [listMax, List.foldl, max_def, round2_zero]
  have h2 : maxDrawdownSpec rows3 = 20 := by
    simp [maxDrawdownSpec, backtest, runBT, btStep, btInner, closeState,
      initBT, rows3, INITIAL_BALANCE, SPREAD, PIP_VALUE, STOP_LOSS_PIPS,
      TAKE_PROFIT_PIPS]
    norm_num [listMax, List.foldl, max_def]
  refine ⟨h1, h2, ?_⟩
  rw [h1, h2]
  norm_num

/-- Witness input for the amended C3 theorem: a single bar with no signal. -/
def c3w_rows : List Row := [⟨0, 100, 101, 99, 100, none⟩]

theorem c3_amended_max_drawdown_witness :
    max_drawdown c3w_rows = 0 ∧ 0 ≤ max_drawdown c3w_rows := by
  have happ := c3_amended_max_drawdown c3w_rows (by simp [c3w_rows])
  refine ⟨happ.2.2 ?_, happ.2.1⟩
  intro e he
  simp [backtest, runBT, btStep, btInner, closeState, initBT, c3w_rows] at he
  simp [he, INITIAL_BALANCE]


/-! ## C4: the `if exit_price:` truthiness check suppresses an exit at
stop price exactly 0 -/

/-- C4 failing input: the Buy at bar 0 (close 0.0015) opens a trade with
`entry = 0.002`, `sl = 0`, `tp = 0.006`; on bar 1 both `low ≤ sl` and
`high ≥ tp` hold, so per the spec the trade must exit at the stop with
outcome Loss. -/
def rows4 : List Row :=
  [⟨0, 15/10000, 20/10000, 10/10000, 15/10000, some Sig.buy⟩,
   ⟨1, 10/10000, 1, -1, 10/10000, none⟩]

/-- C4: on `rows4` the stop price is exactly 0, `low ≤ sl` (and even
`high ≥ tp`) on bar 1, yet the program records no exit at all: the ledger
stays empty, the balance is untouched and the trade remains open, because
`exit_price = 0.0` is falsy in the `if exit_price:` test. -/
theorem c4_stop_loss_truthiness_bug :
    (backtest rows4).open_trade = some ⟨2/1000, 0, 6/1000, 0⟩
    ∧ (backtest rows4).positions = []
    ∧ (backtest rows4).balance = INITIAL_BALANCE
    ∧ ((-1 : ℚ) ≤ 0 ∧ (6/1000 : ℚ) ≤ 1) := by
  refine ⟨?_, ?_, ?_, by norm_num⟩ <;>
  · simp [backtest, runBT, btStep, btInner, closeState, initBT, rows4,
      INITIAL_BALANCE, SPREAD, PIP_VALUE, STOP_LOSS_PIPS, TAKE_PROFIT_PIPS]
    norm_num

/-! ## C6: trades close strictly after they open -/

/-- Invariant carried through the backtest loop: ledger entries close after
they open, and any open trade was opened strictly before every remaining bar. -/
lemma runBT_entry_exit :
    ∀ (rows : List Row) (st : BTState),
      List.Pairwise (fun a b : Row => a.time < b.time) rows →
      (∀ p ∈ st.positions, p.entry_time < p.exit_time) →
      (∀ tr, st.open_trade = some tr → ∀ r ∈ rows, tr.entry_time < r.time) →
      ∀ p ∈ (runBT st rows).positions, p.entry_time < p.exit_time := by
  intro rows
  induction rows with
  | nil => intro st _ hpos _; exact hpos
  | cons r rs ih =>
    intro st hpair hpos hopen
    have hr := (List.pairwise_cons.mp hpair).1
    have hpair' := (List.pairwise_cons.mp hpair).2
    apply ih (btStep st r) hpair'
    · rw [btStep_positions]
      rcases btInner_cases st r with hc | ⟨hsig, hot, heq⟩ |
        ⟨tr, ep, res, hot, hne, hcond, heq⟩
      · rw [hc]; exact hpos
      · rw [heq]; exact hpos
      · rw [heq]
        intro p hp
        rcases List.mem_append.mp hp with h1 | h2
        · exact hpos p h1
        · have hpeq := List.mem_singleton.mp h2
          subst hpeq
          exact hopen tr hot r (List.mem_cons_self r rs)
    · rw [btStep_open_trade]
      rcases btInner_cases st r with hc | ⟨hsig, hot, heq⟩ |
        ⟨tr, ep, res, hot, hne, hcond, heq⟩
      · rw [hc]
        intro tr2 htr2 r2 hr2
        exact hopen tr2 htr2 r2 (List.mem_cons_of_mem r hr2)
      · rw [heq]
        intro tr2 htr2 r2 hr2
        have h2 : tr2 = ⟨r.close + SPREAD,
            r.close + SPREAD - STOP_LOSS_PIPS * PIP_VALUE,
            r.close + SPREAD + TAKE_PROFIT_PIPS * PIP_VALUE, r.time⟩ :=
          (Option.some_inj.mp htr2).symm
        rw [h2]
        exact hr r2 hr2
      · rw [heq]
        intro tr2 htr2
        exact absurd htr2 (by simp [closeState])

/-- C6: at most one trade is ever open (the simulator state holds an
`Option OpenTrade`), and under strictly increasing timestamps every ledger
entry's exit timestamp is strictly later than its entry timestamp — a trade
opened on a bar is never exited on that same bar, since exit checks run on
the `elif` branch only. -/
theorem c6_no_same_bar_exit (rows : List Row)
    (h : List.Pairwise (fun a b : Row => a.time < b.time) rows) :
    ∀ p ∈ (backtest rows).positions, p.entry_time < p.exit_time :=
  runBT_entry_exit rows initBT h (by simp [initBT]) (by simp [initBT])

/-- Witness input: a Buy on bar 0, take-profit hit on bar 1. -/
def c6w_rows : List Row :=
  [⟨0, 1, 12/10, 9/10, 1, some Sig.buy⟩,
   ⟨1, 1, 2, 1, 19/10, none⟩]

/-- The single ledger entry that the `c6w_rows` run produces. -/
def c6w_trade : ClosedTrade :=
  ⟨0, 1, 2001/2000, 2009/2000, Res.win, 40, 1040⟩

lemma round2_nat (n : ℕ) : round2 ((n : ℕ) : ℚ) = ((n : ℕ) : ℚ) := by
  have h := round2_intCast (n : ℤ)
  push_cast at h ⊢
  exact h

lemma round2_forty : round2 (40 : ℚ) = 40 := by
  simpa using round2_nat 40

lemma round2_1040 : round2 (1040 : ℚ) = 1040 := by
  simpa using round2_nat 1040

lemma c6w_positions : (backtest c6w_rows).positions = [c6w_trade] := by
  simp [backtest, runBT, btStep, btInner, closeState, initBT, c6w_rows,
    c6w_trade, INITIAL_BALANCE, SPREAD, PIP_VALUE, STOP_LOSS_PIPS,
    TAKE_PROFIT_PIPS]
  norm_num [round2_forty, round2_1040]

theorem c6_no_same_bar_exit_witness : c6w_trade.entry_time < c6w_trade.exit_time := by
  have hpair : List.Pairwise (fun a b : Row => a.time < b.time) c6w_rows := by
    simp [c6w_rows]
  have hmem : c6w_trade ∈ (backtest c6w_rows).positions := by
    rw [c6w_positions]
    exact List.mem_singleton_self c6w_trade
  exact c6_no_same_bar_exit c6w_rows hpair c6w_trade hmem

/-! ## C7: a Sell signal is inert in the trade simulator -/

/-- C7: one backtest iteration treats a bar carrying a Sell signal exactly
like a bar carrying no signal: the Sell value is never read — only stop/target
resolution can close a trade, and balance/ledger/open-trade are otherwise
untouched. -/
theorem c7_sell_signal_inert (st : BTState) (t : ℕ) (o h l c : ℚ) :
    btStep st ⟨t, o, h, l, c, some Sig.sell⟩ = btStep st ⟨t, o, h, l, c, none⟩ := by
  unfold btStep btInner
  simp [closeState]

/-! ## C8: entry and exit arithmetic -/

/-- C8: on a Buy signal with no open trade the simulator opens exactly
`entry = close + spread`, `sl = entry − stopLossPips·pipValue`,
`tp = entry + takeProfitPips·pipValue` (balance and ledger untouched), and
whenever an exit is recorded the balance moves by exactly
`(exitPrice − entryPrice)/pipValue`, the record enters the ledger, and the
open trade is cleared. -/
theorem c8_trade_arithmetic (st : BTState) (r : Row) :
    (st.open_trade = none → r.signal = some Sig.buy →
      (btStep st r).open_trade = some ⟨r.close + SPREAD,
          r.close + SPREAD - STOP_LOSS_PIPS * PIP_VALUE,
          r.close + SPREAD + TAKE_PROFIT_PIPS * PIP_VALUE, r.time⟩
      ∧ (btStep st r).balance = st.balance
      ∧ (btStep st r).positions = st.positions)
    ∧ (∀ tr p, st.open_trade = some tr →
        (btStep st r).positions = st.positions ++ [p] →
        p.entry = tr.entry
        ∧ (btStep st r).balance = st.balance + (p.exit - p.entry) / PIP_VALUE
        ∧ (btStep st r).open_trade = none) := by
  constructor
  · intro ho hsig
    have hcond : r.signal = some Sig.buy ∧ st.open_trade = none := ⟨hsig, ho⟩
    rw [btStep_open_trade, btStep_balance, btStep_positions]
    unfold btInner
    rw [if_pos hcond]
    exact ⟨rfl, rfl, rfl⟩
  · intro tr p hot hgrow
    rw [btStep_positions] at hgrow
    rcases btInner_cases st r with hc | ⟨hsig, hot2, heq⟩ |
      ⟨tr2, ep, res, hot2, hne, hcond, heq⟩
    · rw [hc] at hgrow
      have := congrArg List.length hgrow
      simp at this
    · rw [hot] at hot2
      exact absurd hot2 (by simp)
    · have htr : tr2 = tr := Option.some_inj.mp (hot2.symm.trans hot)
      subst htr
      rw [heq] at hgrow
      simp only [closeState] at hgrow
      have hrec := List.append_inj_right hgrow rfl
      injection hrec with h1 _
      subst h1
      rw [btStep_balance, btStep_open_trade, heq]
      refine ⟨rfl, by simp [closeState], by simp [closeState]⟩

/-- Witness row for the open branch of C8. -/
def c8w_buyrow : Row := ⟨0, 1, 2, 1, 1, some Sig.buy⟩

/-- Witness state with an open trade for the exit branch of C8. -/
def c8w_st2 : BTState :=
  { balance := 1000, equity := [1000], positions := [],
    open_trade := some ⟨1, 1/2, 2, 0⟩ }

def c8w_row2 : Row := ⟨1, 1, 1, 1/4, 1, none⟩

/-- The ledger record produced by the exit branch of the C8 witness. -/
def c8w_pos : ClosedTrade :=
  ⟨0, 1, 1, 1/2, Res.loss, round2 ((1/2 - 1) / PIP_VALUE),
   round2 (1000 + (1/2 - 1) / PIP_VALUE)⟩

theorem c8_trade_arithmetic_witness :
    (btStep initBT c8w_buyrow).open_trade = some ⟨(1 : ℚ) + SPREAD,
        1 + SPREAD - STOP_LOSS_PIPS * PIP_VALUE,
        1 + SPREAD + TAKE_PROFIT_PIPS * PIP_VALUE, 0⟩
    ∧ c8w_pos.entry = (1 : ℚ) := by
  constructor
  · exact ((c8_trade_arithmetic initBT c8w_buyrow).1 rfl rfl).1
  · have hgrow : (btStep c8w_st2 c8w_row2).positions =
        c8w_st2.positions ++ [c8w_pos] := by
      simp [btStep_positions, btInner, closeState, c8w_st2, c8w_row2, c8w_pos]
      norm_num
    exact ((c8_trade_arithmetic c8w_st2 c8w_row2).2 ⟨1, 1/2, 2, 0⟩ c8w_pos rfl hgrow).1

/-! ## C10: every closed trade gains exactly +40 or −20 pips -/

/-- A ledger entry whose exit sits exactly at the configured target (a Win,
+`TAKE_PROFIT_PIPS` pips) or exactly at the configured stop (a Loss,
−`STOP_LOSS_PIPS` pips). -/
def FixedPipTrade (p : ClosedTrade) : Prop :=
  (p.result = Res.win ∧ p.exit = p.entry + TAKE_PROFIT_PIPS * PIP_VALUE
    ∧ p.pips = TAKE_PROFIT_PIPS)
  ∨ (p.result = Res.loss ∧ p.exit = p.entry - STOP_LOSS_PIPS * PIP_VALUE
    ∧ p.pips = -STOP_LOSS_PIPS)

/-- An open trade whose stop and target sit at the configured offsets from
its entry price. -/
def TradeOffsets (tr : OpenTrade) : Prop :=
  tr.sl = tr.entry - STOP_LOSS_PIPS * PIP_VALUE
  ∧ tr.tp = tr.entry + TAKE_PROFIT_PIPS * PIP_VALUE

lemma round2_neg_twenty : round2 (-20 : ℚ) = -20 := by
  have h := round2_intCast (-20)
  push_cast at h
  exact h

lemma btStep_fixed_pips (st : BTState) (r : Row)
    (ho : ∀ tr, st.open_trade = some tr → TradeOffsets tr) :
    (∀ tr, (btStep st r).open_trade = some tr → TradeOffsets tr)
    ∧ (∀ p ∈ (btStep st r).positions, p ∈ st.positions ∨ FixedPipTrade p)
    ∧ ((btStep st r).balance = st.balance
        ∨ (btStep st r).balance = st.balance + TAKE_PROFIT_PIPS
        ∨ (btStep st r).balance = st.balance - STOP_LOSS_PIPS) := by
  rw [btStep_open_trade, btStep_positions, btStep_balance]
  rcases btInner_cases st r with hc | ⟨hsig, hot, heq⟩ |
    ⟨tr, ep, res, hot, hne, hcond, heq⟩
  · rw [hc]
    exact ⟨ho, fun p hp => Or.inl hp, Or.inl rfl⟩
  · rw [heq]
    refine ⟨?_, fun p hp => Or.inl hp, Or.inl rfl⟩
    intro tr2 htr2
    have h2 : tr2 = ⟨r.close + SPREAD,
        r.close + SPREAD - STOP_LOSS_PIPS * PIP_VALUE,
        r.close + SPREAD + TAKE_PROFIT_PIPS * PIP_VALUE, r.time⟩ :=
      (Option.some_inj.mp htr2).symm
    rw [h2]
    exact ⟨rfl, rfl⟩
  · rw [heq]
    obtain ⟨hsl, htp⟩ := ho tr hot
    rcases hcond with ⟨hep, hres, _⟩ | ⟨hep, hres, _, _⟩
    · -- loss at the stop
      subst hep
      subst hres
      have hpips : (tr.sl - tr.entry) / PIP_VALUE = -STOP_LOSS_PIPS := by
        have hpip : (PIP_VALUE : ℚ) ≠ 0 := by norm_num [PIP_VALUE]
        rw [hsl]
        field_simp
      refine ⟨by simp [closeState], ?_, ?_⟩
      · intro p hp
        simp only [closeState] at hp
        rcases List.mem_append.mp hp with h1 | h2
        · exact Or.inl h1
        · have hpeq := List.mem_singleton.mp h2
          subst hpeq
          refine Or.inr (Or.inr ⟨rfl, ?_, ?_⟩)
          · exact hsl
          · show round2 ((tr.sl - tr.entry) / PIP_VALUE) = -STOP_LOSS_PIPS
            rw [hpips]
            norm_num [STOP_LOSS_PIPS, round2_neg_twenty]
      · refine Or.inr (Or.inr ?_)
        show st.balance + (tr.sl - tr.entry) / PIP_VALUE = st.balance - STOP_LOSS_PIPS
        rw [hpips]
        ring
    · -- win at the target
      subst hep
      subst hres
      have hpips : (tr.tp - tr.entry) / PIP_VALUE = TAKE_PROFIT_PIPS := by
        have hpip : (PIP_VALUE : ℚ) ≠ 0 := by norm_num [PIP_VALUE]
        rw [htp]
        field_simp
      refine ⟨by simp [closeState], ?_, ?_⟩
      · intro p hp
        simp only [closeState] at hp
        rcases List.mem_append.mp hp with h1 | h2
        · exact Or.inl h1
        · have hpeq := List.mem_singleton.mp h2
          subst hpeq
          refine Or.inr (Or.inl ⟨rfl, ?_, ?_⟩)
          · exact htp
          · show round2 ((tr.tp - tr.entry) / PIP_VALUE) = TAKE_PROFIT_PIPS
            rw [hpips]
            norm_num [TAKE_PROFIT_PIPS, round2_forty]
      · refine Or.inr (Or.inl ?_)
        show st.balance + (tr.tp - tr.entry) / PIP_VALUE = st.balance + TAKE_PROFIT_PIPS
        rw [hpips]

lemma runBT_fixed_pips :
    ∀ (rows : List Row) (st : BTState),
      (∀ tr, st.open_trade = some tr → TradeOffsets tr) →
      (∀ p ∈ st.positions, FixedPipTrade p) →
      (∀ tr, (runBT st rows).open_trade = some tr → TradeOffsets tr)
      ∧ (∀ p ∈ (runBT st rows).positions, FixedPipTrade p) := by
  intro rows
  induction rows with
  | nil => intro st ho hp; exact ⟨ho, hp⟩
  | cons r rs ih =>
    intro st ho hp
    obtain ⟨ho2, hmem, _⟩ := btStep_fixed_pips st r ho
    apply ih (btStep st r) ho2
    intro p hpp
    rcases hmem p hpp with h1 | h2
    · exact hp p h1
    · exact h2

/-- C10: every ledger entry exits exactly at its target (Win, recorded pip
gain exactly `TAKE_PROFIT_PIPS`) or exactly at its stop (Loss, recorded pip
gain exactly `−STOP_LOSS_PIPS`), and processing one more bar moves the
balance by exactly 0, `+TAKE_PROFIT_PIPS` or `−STOP_LOSS_PIPS`. -/
theorem c10_fixed_pip_outcomes (rows : List Row) :
    (∀ p ∈ (backtest rows).positions, FixedPipTrade p)
    ∧ (∀ r : Row, (backtest (rows ++ [r])).balance = (backtest rows).balance
        ∨ (backtest (rows ++ [r])).balance = (backtest rows).balance + TAKE_PROFIT_PIPS
        ∨ (backtest (rows ++ [r])).balance = (backtest rows).balance - STOP_LOSS_PIPS) := by
  constructor
  · exact (runBT_fixed_pips rows initBT (by simp [initBT]) (by simp [initBT])).2
  · intro r
    have hsplit : backtest (rows ++ [r]) = btStep (backtest rows) r := by
      rw [backtest, runBT_append]
      rfl
    rw [hsplit]
    exact (btStep_fixed_pips (backtest rows) r
      (runBT_fixed_pips rows initBT (by simp [initBT]) (by simp [initBT])).1).2.2

theorem c10_fixed_pip_outcomes_witness : FixedPipTrade c6w_trade := by
  have hmem : c6w_trade ∈ (backtest c6w_rows).positions := by
    rw [c6w_positions]
    exact List.mem_singleton_self c6w_trade
  exact (c10_fixed_pip_outcomes c6w_rows).1 c6w_trade hmem

/-! ## C9: non-positive EMA length -/

lemma except_error_bind {α β : Type} (msg : String) (f : α → Except String β) :
    (Except.error msg >>= f) = Except.error msg := rfl

/-- C9: calling the zero-lag indicator with a non-positive `length` aborts the
run before any indicator value is produced: the first `ewm` call rejects the
span (`span >= 1` is required) and the error propagates out. -/
theorem c9_nonpositive_length_rejected (closes : List ℚ) (len : ℤ) (sens : ℚ)
    (h : len ≤ 0) :
    zero_lag_trend_level closes len sens =
      Except.error "span must satisfy: span >= 1" := by
  have hlt : len < 1 := by omega
  simp [zero_lag_trend_level, ewmMean, if_pos hlt, except_error_bind]

theorem c9_nonpositive_length_rejected_witness :
    zero_lag_trend_level [1] 0 2 = Except.error "span must satisfy: span >= 1" :=
  c9_nonpositive_length_rejected [1] 0 2 (by norm_num)

end Trading
